import Mathlib

/-!
Verification of the Huawei-TCX-Converter pipeline (`Huawei-TCX-Converter.py`).

The script's data rows (`holding_list`) are 7-slot lists
`[time, lat, long, alti, dist, hr, cad]` whose slots hold either a number or
the empty string `''`.  We embed a slot as `Field` (blank or a rational) and a
row as the structure `Entry`.  Python floats are modelled as exact rationals;
Python truthiness of a slot (`if entry[x]:`) is `Field.truthy`.  Fallible
steps (a `try:`/`except:` that ends in `exit()`) are modelled with `Except`.
-/

deriving instance DecidableEq for Except

namespace HuaweiTCX

/-- A slot of a data row: either the empty string placeholder `''` or a
numeric value (Python ints and floats are both modelled as `ℚ`). -/
inductive Field where
  | blank : Field
  | num : ℚ → Field
deriving DecidableEq

/-- Python truthiness of a slot: `''` and `0`/`0.0` are falsy, every other
number is truthy. -/
def Field.truthy : Field → Bool
  | .blank => false
  | .num q => decide (q ≠ 0)

/-- Numeric view of a slot, `none` on the `''` placeholder (where Python
`float('')` or arithmetic on `''` raises). -/
def Field.toQ : Field → Option ℚ
  | .blank => none
  | .num q => some q

/-- One data row `[time, lat, long, alti, dist, hr, cad]` of the script.
Slot 0 (the timestamp) is always numeric in every branch of `read_file`, so
it is carried as a plain `ℚ`. -/
structure Entry where
  time : ℚ
  lat : Field
  lon : Field
  alti : Field
  dist : Field
  hr : Field
  cad : Field
deriving DecidableEq

/-- The relation `entry[0] <= entry'[0]` used as the sort key (`key=lambda
x : x[0]` and `operator.itemgetter(0)`). -/
def Entry.timeLE (a b : Entry) : Prop := a.time ≤ b.time

instance : DecidableRel Entry.timeLE := fun a b => inferInstanceAs (Decidable (a.time ≤ b.time))

instance : IsTotal Entry Entry.timeLE := ⟨fun a b => le_total a.time b.time⟩

instance : IsTrans Entry Entry.timeLE := ⟨fun _ _ _ h h' => le_trans h h'⟩

/-- Python's `sorted` is a stable sort; a stable sort by the `time` key is
extensionally the insertion sort with the non-strict key comparison. -/
def sortByTime (l : List Entry) : List Entry := List.insertionSort Entry.timeLE l

/-- Truncation toward zero, as Python's `int(...)` on a float. -/
def qtrunc (q : ℚ) : ℤ := if 0 ≤ q then ⌊q⌋ else -⌊-q⌋

/-- Fuelled base-10 logarithm on `ℕ`: `log10Aux fuel n` counts how often `n`
can be divided by `10` before dropping below `10`.  With `n ≤ fuel` it is
`⌊log10 n⌋` for `n ≥ 1` (see `log10Aux_spec`). -/
def log10Aux : Nat → Nat → Nat
  | 0, _ => 0
  | fuel + 1, n => if n < 10 then 0 else log10Aux fuel (n / 10) + 1

/-- Base-10 order of magnitude of a natural number (`⌊log10 n⌋` for `n ≥ 1`). -/
def natLog10 (n : Nat) : Nat := log10Aux n n

/-- The value `int(math.log10(t))` computed by `_normalize_timestamp` for a
positive `t`: `math.log10` of a positive rational, truncated toward zero.
For `t ≥ 1` this is `⌊log10 t⌋ = natLog10 ⌊t⌋ ≥ 0`; for `0 < t < 1` the
truncation toward zero of the negative logarithm is `-⌊log10 (1/t)⌋ =
-(natLog10 ⌊1/t⌋)`. -/
def oomQ (t : ℚ) : ℤ :=
  if 1 ≤ t then (natLog10 ⌊t⌋.toNat : ℤ) else -(natLog10 ⌊1 / t⌋.toNat : ℤ)

/-- `_normalize_timestamp` of the script.  `math.log10(timestamp)` raises a
domain error for `timestamp ≤ 0`, which the enclosing `try:` in `read_file`
turns into program exit: modelled as `.error ()`.  Otherwise
`oom = int(math.log10(timestamp))`; if `oom == 9` the value is returned
unchanged, else it is divided by `10 ** (oom - 9)` (for `oom > 9`) or by
`0.1 ** (9 - oom)` (for `oom < 9`) — in exact arithmetic both divisors equal
`10 ^ (oom - 9 : ℤ)`, so the result is `t * 10 ^ (9 - oom : ℤ)`. -/
def normalizeTimestamp (t : ℚ) : Except Unit ℚ :=
  if t ≤ 0 then .error ()
  else
    let oom := oomQ t
    if oom = 9 then .ok t else .ok (t * (10 : ℚ) ^ ((9 : ℤ) - oom))

/-- A raw log line of the HiTrack file, after key=value extraction.  The
string-splitting of `read_file` is abstracted: each recognized tag
(`tp=lbs`, `tp=h-r`, `tp=s-r`, `tp=alti`) carries the numeric fields the
script extracts from it; `other` is any line with an unrecognized prefix,
which the script silently skips. -/
inductive RawLine where
  | lbs (t lat lon : ℚ) : RawLine
  | hr (t : ℚ) (bpm : ℤ) : RawLine
  | sr (t : ℚ) (rpm : ℤ) : RawLine
  | alti (t alt : ℚ) : RawLine
  | other : RawLine
deriving DecidableEq

/-- The mutable state of `read_file`'s line loop: the four stream lists, the
accumulated `data['lap']` list, and the current `lap_start_stop` pair. -/
structure ReadState where
  gps : List Entry
  alti : List Entry
  hr : List Entry
  cad : List Entry
  lap : List (ℚ × ℚ)
  lss : ℚ × ℚ
deriving DecidableEq

/-- Initial state: empty stream lists and `lap_start_stop = [0, 0]`. -/
def initReadState : ReadState := ⟨[], [], [], [], [], (0, 0)⟩

/-- A row whose six non-time slots are the `''` placeholder. -/
def blankEntry (t : ℚ) : Entry :=
  ⟨t, .blank, .blank, .blank, .blank, .blank, .blank⟩

/-- One iteration of `read_file`'s line loop.  For a `tp=lbs` line the guard
is the script's `holding_list[0] != 0 and holding_list[1] != 90 and
holding_list[2] != -80`; in the guarded branch the time is normalized, the
row appended to `data['gps']` and `lap_start_stop` updated, otherwise the
line is treated as a pause record: `lap_start_stop` is appended to
`data['lap']` and reset.  Sensor lines truncate the time with
`int(float(...))`, then normalize it unconditionally; a normalization
failure propagates (the enclosing `try:` exits the program). -/
def processLine (s : ReadState) : RawLine → Except Unit ReadState
  | .lbs t lat lon =>
    if t ≠ 0 ∧ lat ≠ 90 ∧ lon ≠ -80 then
      match normalizeTimestamp t with
      | .error e => .error e
      | .ok tn =>
        let e : Entry := { time := tn, lat := .num lat, lon := .num lon,
                           alti := .blank, dist := .blank, hr := .blank, cad := .blank }
        let start := if s.lss.1 = 0 then tn else s.lss.1
        let stop := if s.lss.2 < tn then tn else s.lss.2
        .ok { s with gps := s.gps ++ [e], lss := (start, stop) }
    else
      .ok { s with lap := s.lap ++ [s.lss], lss := (0, 0) }
  | .hr t bpm =>
    match normalizeTimestamp ((qtrunc t : ℤ) : ℚ) with
    | .error e => .error e
    | .ok tn => .ok { s with hr := s.hr ++ [{ blankEntry tn with hr := .num (bpm : ℚ) }] }
  | .sr t rpm =>
    match normalizeTimestamp ((qtrunc t : ℤ) : ℚ) with
    | .error e => .error e
    | .ok tn => .ok { s with cad := s.cad ++ [{ blankEntry tn with cad := .num (rpm : ℚ) }] }
  | .alti t alt =>
    match normalizeTimestamp ((qtrunc t : ℤ) : ℚ) with
    | .error e => .error e
    | .ok tn => .ok { s with alti := s.alti ++ [{ blankEntry tn with alti := .num alt }] }
  | .other => .ok s

/-- The dictionary `read_file` returns. -/
structure HiData where
  gps : List Entry
  alti : List Entry
  hr : List Entry
  cad : List Entry
  lap : List (ℚ × ℚ)
deriving DecidableEq

/-- `read_file`: fold the line loop over the input, then append the pending
`lap_start_stop` when its start time is non-zero, and sort the GPS stream by
timestamp.  Any exception inside the loop exits the program (`.error`). -/
def read_file (lines : List RawLine) : Except Unit HiData :=
  match lines.foldlM processLine initReadState with
  | .error e => .error e
  | .ok s =>
    let laps := if s.lss.1 ≠ 0 then s.lap ++ [s.lss] else s.lap
    .ok { gps := sortByTime s.gps, alti := s.alti, hr := s.hr, cad := s.cad, lap := laps }

/-- The in-place slot copy of `merge_data`'s coalescing step:
`for x in range(1,7): if entry[x]: data[n-1][x] = entry[x]` — every truthy
slot of `entry` overwrites the corresponding slot of the previous row; the
timestamp (slot 0) is not copied. -/
def mergeFields (prev entry : Entry) : Entry :=
  { time := prev.time
    lat := if entry.lat.truthy then entry.lat else prev.lat
    lon := if entry.lon.truthy then entry.lon else prev.lon
    alti := if entry.alti.truthy then entry.alti else prev.alti
    dist := if entry.dist.truthy then entry.dist else prev.dist
    hr := if entry.hr.truthy then entry.hr else prev.hr
    cad := if entry.cad.truthy then entry.cad else prev.cad }

/-- Python's `list.remove(e)`: drop the first element equal to `e`. -/
def removeFirst : List Entry → Entry → List Entry
  | [], _ => []
  | a :: rest, e => if a = e then rest else a :: removeFirst rest e

/-- The loop `for n, entry in enumerate(data): ... data.remove(entry)` of
`merge_data`, modelled at the level of Python's list iterator: the iterator
index `i` advances by one on every step even when the list was shortened by
`data.remove(entry)`, which is exactly the source's remove-while-iterating
behaviour.  The loop runs at most `data.length` iterations, so the fuel
argument (instantiated with the initial length) never runs out. -/
def mergeLoopAux : Nat → List Entry → Nat → List Entry
  | 0, data, _ => data
  | fuel + 1, data, i =>
    if h : i < data.length then
      if h0 : i = 0 then mergeLoopAux fuel data (i + 1)
      else
        if (data.get ⟨i, h⟩).time = (data.get ⟨i - 1, by omega⟩).time then
          mergeLoopAux fuel
            (removeFirst
              (data.set (i - 1)
                (mergeFields (data.get ⟨i - 1, by omega⟩) (data.get ⟨i, h⟩)))
              (data.get ⟨i, h⟩))
            (i + 1)
        else mergeLoopAux fuel data (i + 1)
    else data

/-- The concatenation `data['gps']+data['alti']+data['hr']+data['cad']`
sorted by timestamp (stable, like Python's `sorted`). -/
def sortedConcat (d : HiData) : List Entry :=
  sortByTime (d.gps ++ d.alti ++ d.hr ++ d.cad)

/-- `merge_data`: concatenate the four streams, sort by timestamp, then run
the (remove-while-iterating) coalescing loop. -/
def merge_data (d : HiData) : List Entry :=
  mergeLoopAux (sortedConcat d).length (sortedConcat d) 0

/-- Reference coalescing of adjacent equal-timestamp pairs, skipping the
element after a merged pair — the structural counterpart of the source's
loop (whose iterator skip makes it jump over that element).  On inputs
where every timestamp occurs at most twice this is also the full
per-timestamp field-wise union. -/
def coalescePairs : List Entry → List Entry
  | [] => []
  | [a] => [a]
  | a :: b :: rest =>
    if b.time = a.time then mergeFields a b :: coalescePairs rest
    else a :: coalescePairs (b :: rest)

/-- The loop body of `process_gps` for `n >= 1`, carrying the previously
processed row.  Each row's slot 4 becomes the pairwise distance to the
previous row plus the previous row's slot 4.  The pairwise distance
`_vincenty((entry[1], entry[2]), (prev[1], prev[2]))` is a floating-point
iteration over transcendental functions; it is abstracted here as the
parameter `dist` (current lat, current lon, previous lat, previous lon).
`float('')` on a blank slot raises, which the enclosing `try:` turns into
program exit: modelled as `.error ()`. -/
def processGpsAux (dist : ℚ → ℚ → ℚ → ℚ → ℚ) :
    Entry → List Entry → Except Unit (List Entry)
  | _, [] => .ok []
  | prev, e :: rest =>
    match e.lat.toQ, e.lon.toQ, prev.lat.toQ, prev.lon.toQ, prev.dist.toQ with
    | some la, some lo, some pla, some plo, some pd =>
      match processGpsAux dist { e with dist := .num (dist la lo pla plo + pd) } rest with
      | .ok tail => .ok ({ e with dist := .num (dist la lo pla plo + pd) } :: tail)
      | .error u => .error u
    | _, _, _, _, _ => .error ()

/-- `process_gps`: the first GPS row gets distance `0`
(`if n == 0: entry[4] = 0`), every later row the accumulated pairwise
distance. -/
def process_gps (dist : ℚ → ℚ → ℚ → ℚ → ℚ) : List Entry → Except Unit (List Entry)
  | [] => .ok []
  | e :: rest =>
    match processGpsAux dist { e with dist := .num 0 } rest with
    | .ok tail => .ok ({ e with dist := .num 0 } :: tail)
    | .error u => .error u

/-- The numeric value of a row's distance slot (junk value `0` on blank). -/
def Entry.distVal (e : Entry) : ℚ :=
  match e.dist with
  | .blank => 0
  | .num q => q

/-- Adjacent relation produced by the distance accumulation: both rows carry
numeric distance and position slots, and the later row's cumulative distance
is the pairwise distance to the earlier row plus the earlier row's
cumulative distance, hence no smaller. -/
def stepR (dist : ℚ → ℚ → ℚ → ℚ → ℚ) (a b : Entry) : Prop :=
  ∃ d0 d1 la lo pla plo, a.dist = .num d0 ∧ b.dist = .num d1 ∧
    b.lat = .num la ∧ b.lon = .num lo ∧ a.lat = .num pla ∧ a.lon = .num plo ∧
    d1 = dist la lo pla plo + d0 ∧ d0 ≤ d1

/-- A concrete nonnegative pairwise distance function used as witness
input. -/
def exDist : ℚ → ℚ → ℚ → ℚ → ℚ := fun _ _ _ _ => 7

/-- Strict ordering of rows by timestamp. -/
def Entry.timeLT (a b : Entry) : Prop := a.time < b.time

/-- The inner scan of `calculate_lap_stats` for one lap: walk the GPS list;
on `gps_data[0] == lap_data[0]` store that row's distance slot in
`start_distance`, on `elif gps_data[0] == lap_data[1]` append
`gps_data[4] - start_distance` and `break`.  `start_distance` is a local of
the enclosing function, so it persists across laps — modelled as the
threaded `Option Field` (`none` = never assigned).  Referencing it before
any assignment is a `NameError` and arithmetic on a `''` slot a
`TypeError`; both are caught by the surrounding `try:` which exits the
program: `.error ()`.  `lapStopCalc` is the `elif` body
`lap_data.append(gps_data[4] - start_distance); break`. -/
def lapStopCalc (sd : Option Field) (gdist : Field) :
    Except Unit (Option Field × Option ℚ) :=
  match sd with
  | none => .error ()
  | some sdf =>
    match gdist, sdf with
    | .num dd1, .num dd0 => .ok (some sdf, some (dd1 - dd0))
    | _, _ => .error ()

def lapScanAux (l0 l1 : ℚ) : List Entry → Option Field → Except Unit (Option Field × Option ℚ)
  | [], sd => .ok (sd, none)
  | g :: rest, sd =>
    if g.time = l0 then lapScanAux l0 l1 rest (some g.dist)
    else if g.time = l1 then lapStopCalc sd g.dist
    else lapScanAux l0 l1 rest sd

/-- The lap loop of `calculate_lap_stats`: for each lap record append the
duration `lap_data[1] - lap_data[0]`, then run the GPS scan; when the scan
found the stop boundary the lap distance is appended, otherwise the record
stays three elements long. -/
def calcLapStatsAux (gps : List Entry) :
    List (ℚ × ℚ) → Option Field → Except Unit (List (List ℚ))
  | [], _ => .ok []
  | (l0, l1) :: laps, sd =>
    match lapScanAux l0 l1 gps sd with
    | .error e => .error e
    | .ok (sd2, dopt) =>
      match calcLapStatsAux gps laps sd2 with
      | .error e => .error e
      | .ok rest =>
        .ok (([l0, l1, l1 - l0] ++
          (match dopt with | some dd => [dd] | none => [])) :: rest)

/-- `calculate_lap_stats` of the script: the lap loop started with the
`start_distance` local not yet assigned. -/
def calculate_lap_stats (gps : List Entry) (laps : List (ℚ × ℚ)) :
    Except Unit (List (List ℚ)) :=
  calcLapStatsAux gps laps none

/-- The filter predicate of `filter_data`'s heart-rate loop:
`line[5] < 1 or line[5] > 254`.  Comparing the `''` placeholder with a
number is a Python `TypeError`, caught by the stage's `try:`: `.error`. -/
def badHr (e : Entry) : Except Unit Bool :=
  match e.hr with
  | .num q => .ok (decide (q < 1 ∨ 254 < q))
  | .blank => .error ()

/-- The filter predicate of the cadence loop: `line[6] < 0 or line[6] > 254`. -/
def badCad (e : Entry) : Except Unit Bool :=
  match e.cad with
  | .num q => .ok (decide (q < 0 ∨ 254 < q))
  | .blank => .error ()

/-- The filter predicate of the altitude loop:
`line[3] < -1000 or line[3] > 10000`. -/
def badAlti (e : Entry) : Except Unit Bool :=
  match e.alti with
  | .num q => .ok (decide (q < -1000 ∨ 10000 < q))
  | .blank => .error ()

/-- One of `filter_data`'s `for line in data[...]: if <bad>:
data[...].remove(line)` loops, modelled at the level of Python's list
iterator like `mergeLoopAux`: the index advances every step even after a
removal, so the element following a removed element is never examined.  A
predicate exception aborts the loop; the `.error` payload carries the list
as already mutated (the `original_data` "back-up" in the source is an alias
of the same object, not a copy). -/
def filterLoopAux (bad : Entry → Except Unit Bool) :
    Nat → List Entry → Nat → Except (List Entry) (List Entry)
  | 0, l, _ => .ok l
  | fuel + 1, l, i =>
    if h : i < l.length then
      match bad (l.get ⟨i, h⟩) with
      | .error _ => .error l
      | .ok true => filterLoopAux bad fuel (removeFirst l (l.get ⟨i, h⟩)) (i + 1)
      | .ok false => filterLoopAux bad fuel l (i + 1)
    else .ok l

/-- A full remove-while-iterating pass with sufficient fuel. -/
def filterLoop (bad : Entry → Except Unit Bool) (l : List Entry) :
    Except (List Entry) (List Entry) :=
  filterLoopAux bad l.length l 0

/-- `filter_data`: run the three removal loops over the `hr`, `cad` and
`alti` streams in that order; on an exception the function returns
`original_data`, which aliases the partially mutated dictionary. -/
def filter_data (d : HiData) : HiData :=
  match filterLoop badHr d.hr with
  | .error hr2 => { d with hr := hr2 }
  | .ok hr2 =>
    match filterLoop badCad d.cad with
    | .error cad2 => { d with hr := hr2, cad := cad2 }
    | .ok cad2 =>
      match filterLoop badAlti d.alti with
      | .error alti2 => { d with hr := hr2, cad := cad2, alti := alti2 }
      | .ok alti2 => { d with hr := hr2, cad := cad2, alti := alti2 }

/-- One `Lap` element of the output document, at the granularity the C8
claim needs: start time (`stats[0]`), `TotalTimeSeconds = int(stats[2])`,
`DistanceMeters = int(stats[3])`, and the trackpoints whose time lies in
`[stats[0], stats[1]]`. -/
structure LapElem where
  startTime : ℚ
  totalTime : ℤ
  distance : ℤ
  track : List Entry
deriving DecidableEq

/-- Trackpoint selection of `generate_xml`'s inner loop: skip a record iff
`line[0] < stats[0] or line[0] > stats[1]`. -/
def trackFor (data : List Entry) (l0 l1 : ℚ) : List Entry :=
  data.filter (fun e => decide (¬ (e.time < l0 ∨ l1 < e.time)))

/-- The lap loop of `generate_xml`.  A lap record with fewer than four
entries (`stats[3]` missing, e.g. a lap whose distance was never computed)
raises an `IndexError` that abandons the rest of the loop; laps already
built remain in the document (the `.error` payload; the partially appended
current `Lap` element is simplified away — only the failure itself and the
retention of the earlier laps matter for the claims). -/
def buildLaps (data : List Entry) : List (List ℚ) → Except (List LapElem) (List LapElem)
  | [] => .ok []
  | stats :: rest =>
    if h : 4 ≤ stats.length then
      match buildLaps data rest with
      | .ok ls =>
        .ok (⟨stats.get ⟨0, by omega⟩, qtrunc (stats.get ⟨2, by omega⟩),
          qtrunc (stats.get ⟨3, by omega⟩),
          trackFor data (stats.get ⟨0, by omega⟩) (stats.get ⟨1, by omega⟩)⟩ :: ls)
      | .error ls =>
        .error (⟨stats.get ⟨0, by omega⟩, qtrunc (stats.get ⟨2, by omega⟩),
          qtrunc (stats.get ⟨3, by omega⟩),
          trackFor data (stats.get ⟨0, by omega⟩) (stats.get ⟨1, by omega⟩)⟩ :: ls)
    else .error []

/-- The session document at the granularity the C8 claim needs: whether the
`Id` element was written (`lap_stats[0][0]` readable), its value, the lap
elements, and whether the `try:` block ran to completion (`complete =
false` means `generate_xml` printed `FAILED` — and still returned the
partially built document). -/
structure TcxDoc where
  hasId : Bool
  idTime : Option ℚ
  laps : List LapElem
  complete : Bool
deriving DecidableEq

/-- The body of `generate_xml` after the `Id` element was written. -/
def genWithId (data : List Entry) (lap_stats : List (List ℚ)) (t0 : ℚ) : TcxDoc :=
  match buildLaps data lap_stats with
  | .ok ls => ⟨true, some t0, ls, true⟩
  | .error ls => ⟨true, some t0, ls, false⟩

/-- `generate_xml`: reading `lap_stats[0][0]` for the `Id` element raises on
an empty lap list or an empty first record; the surrounding `except:` only
prints `FAILED`, and the (partial) `TrainingCenterDatabase` is returned
regardless. -/
def generate_xml (data : List Entry) (lap_stats : List (List ℚ)) : TcxDoc :=
  match lap_stats with
  | [] => ⟨false, none, [], false⟩
  | first :: _ =>
    match first with
    | [] => ⟨false, none, [], false⟩
    | t0 :: _ => genWithId data lap_stats t0

/-- `save_xml`: writes whatever document it is given to `<input>.tcx` —
its own `try:` also only prints on failure — and returns the filename.
The produced artifact is the pair (filename, document written). -/
def save_xml (doc : TcxDoc) (input_file : String) : String × TcxDoc :=
  (input_file ++ ".tcx", doc)

/-- The serialization tail of `main`: `generate_xml` followed by
`save_xml`, with no abort path between them. -/
def serializePipeline (data : List Entry) (lap_stats : List (List ℚ))
    (input_file : String) : String × TcxDoc :=
  save_xml (generate_xml data lap_stats) input_file

/-- A sensor (heart-rate, cadence or altitude) line whose raw timestamp
field is exactly `0`. -/
def isZeroTimeSensor : RawLine → Bool
  | .hr t _ => decide (t = 0)
  | .sr t _ => decide (t = 0)
  | .alti t _ => decide (t = 0)
  | _ => false

theorem log10Aux_spec (fuel : Nat) : ∀ n, n ≤ fuel → 1 ≤ n →
    10 ^ log10Aux fuel n ≤ n ∧ n < 10 ^ (log10Aux fuel n + 1) := by
  induction fuel with
  | zero => intro n hn h1; omega
  | succ fuel ih =>
    intro n hn h1
    rw [log10Aux]
    by_cases h : n < 10
    · rw [if_pos h]
      exact ⟨by simpa using h1, by simpa using h⟩
    · rw [if_neg h]
      have hdle : n / 10 ≤ fuel := by omega
      have hd1 : 1 ≤ n / 10 := by omega
      obtain ⟨ha, hb⟩ := ih (n / 10) hdle hd1
      constructor
      · calc 10 ^ (log10Aux fuel (n / 10) + 1)
            = 10 ^ log10Aux fuel (n / 10) * 10 := by ring
          _ ≤ (n / 10) * 10 := Nat.mul_le_mul_right 10 ha
          _ ≤ n := by omega
      · calc n < (n / 10 + 1) * 10 := by omega
          _ ≤ 10 ^ (log10Aux fuel (n / 10) + 1) * 10 :=
              Nat.mul_le_mul_right 10 (by omega)
          _ = 10 ^ (log10Aux fuel (n / 10) + 1 + 1) := by ring

theorem natLog10_spec (n : Nat) (h1 : 1 ≤ n) :
    10 ^ natLog10 n ≤ n ∧ n < 10 ^ (natLog10 n + 1) :=
  log10Aux_spec n n le_rfl h1

theorem natLog10_unique (n k : Nat) (h1 : 10 ^ k ≤ n) (h2 : n < 10 ^ (k + 1)) :
    natLog10 n = k := by
  have hn1 : 1 ≤ n := le_trans (Nat.one_le_pow k 10 (by omega)) h1
  obtain ⟨ha, hb⟩ := natLog10_spec n hn1
  rcases Nat.lt_trichotomy (natLog10 n) k with hlt | heq | hgt
  · have hle : (10 : ℕ) ^ (natLog10 n + 1) ≤ 10 ^ k :=
      Nat.pow_le_pow_right (by omega) (by omega)
    omega
  · exact heq
  · have hle : (10 : ℕ) ^ (k + 1) ≤ 10 ^ natLog10 n :=
      Nat.pow_le_pow_right (by omega) (by omega)
    omega

theorem oomQ_bounds (t : ℚ) (ht : 1 ≤ t) :
    ∃ k : ℕ, oomQ t = (k : ℤ) ∧ (10 : ℚ) ^ k ≤ t ∧ t < (10 : ℚ) ^ (k + 1) := by
  have hfl : (1 : ℤ) ≤ ⌊t⌋ := by
    rwa [Int.le_floor, Int.cast_one]
  set n : ℕ := ⌊t⌋.toNat with hn
  have hcast : (n : ℤ) = ⌊t⌋ := Int.toNat_of_nonneg (by omega)
  have hn1 : 1 ≤ n := by omega
  obtain ⟨ha, hb⟩ := natLog10_spec n hn1
  refine ⟨natLog10 n, by rw [oomQ, if_pos ht], ?_, ?_⟩
  · calc ((10 : ℚ) ^ natLog10 n) = ((10 ^ natLog10 n : ℕ) : ℚ) := by push_cast; ring
      _ ≤ (n : ℚ) := by exact_mod_cast ha
      _ ≤ t := by
          have := Int.floor_le t
          rw [← hcast] at this
          exact_mod_cast this
  · calc t < (⌊t⌋ : ℚ) + 1 := Int.lt_floor_add_one t
      _ = ((n : ℚ)) + 1 := by rw [← hcast]; push_cast; ring
      _ ≤ ((10 ^ (natLog10 n + 1) : ℕ) : ℚ) := by exact_mod_cast hb
      _ = (10 : ℚ) ^ (natLog10 n + 1) := by push_cast; ring

theorem normalize_fixed_of_ten_digits (t : ℚ)
    (h1 : (10 : ℚ) ^ (9 : ℕ) ≤ t) (h2 : t < (10 : ℚ) ^ (10 : ℕ)) :
    normalizeTimestamp t = .ok t := by
  have ht1 : (1 : ℚ) ≤ t := le_trans (by norm_num) h1
  have ht0 : ¬ t ≤ 0 := by linarith
  have hfl9 : (10 ^ 9 : ℤ) ≤ ⌊t⌋ := by
    rw [Int.le_floor]; exact_mod_cast h1
  have hflu : ⌊t⌋ < (10 ^ 10 : ℤ) := by
    have hle : (⌊t⌋ : ℚ) ≤ t := Int.floor_le t
    have : (⌊t⌋ : ℚ) < (10 : ℚ) ^ (10 : ℕ) := lt_of_le_of_lt hle h2
    exact_mod_cast this
  have hoom : oomQ t = 9 := by
    rw [oomQ, if_pos ht1]
    have h9 : natLog10 ⌊t⌋.toNat = 9 := by
      apply natLog10_unique
      · omega
      · omega
    rw [h9]
    norm_num
  rw [normalizeTimestamp, if_neg ht0]
  simp only [hoom]
  norm_num

/-- Claim C5 (amended): for every timestamp `t ≥ 1`, `_normalize_timestamp`
succeeds, its value has exactly 10 integer digits (it lies in
`[10^9, 10^10)`), and normalization is idempotent on it.  (For `0 < t < 1`
the claim fails, see the counterexample.) -/
theorem C5_normalize_idempotent_ten_digits (t : ℚ) (ht : 1 ≤ t) :
    ∃ u, normalizeTimestamp t = .ok u ∧ (10 : ℚ) ^ (9 : ℕ) ≤ u ∧
      u < (10 : ℚ) ^ (10 : ℕ) ∧ normalizeTimestamp u = .ok u := by
  obtain ⟨k, hk, hkl, hku⟩ := oomQ_bounds t ht
  have ht0 : ¬ t ≤ 0 := by linarith
  by_cases h9 : (k : ℤ) = 9
  · have hk9 : k = 9 := by exact_mod_cast h9
    subst hk9
    have heq : normalizeTimestamp t = .ok t := by
      rw [normalizeTimestamp, if_neg ht0]
      simp only [hk, h9]
      norm_num
    exact ⟨t, heq, hkl, hku, heq⟩
  · have hne : (10 : ℚ) ≠ 0 := by norm_num
    have hpos : (0 : ℚ) < (10 : ℚ) ^ ((9 : ℤ) - k) := by positivity
    set u : ℚ := t * (10 : ℚ) ^ ((9 : ℤ) - k) with hu
    have heq : normalizeTimestamp t = .ok u := by
      rw [normalizeTimestamp, if_neg ht0]
      simp only [hk]
      rw [if_neg h9]
    have hul : (10 : ℚ) ^ (9 : ℕ) ≤ u := by
      have hstep : (10 : ℚ) ^ (k : ℤ) * (10 : ℚ) ^ ((9 : ℤ) - k) ≤ u := by
        apply mul_le_mul_of_nonneg_right _ hpos.le
        rw [zpow_natCast]; exact hkl
      calc (10 : ℚ) ^ (9 : ℕ) = (10 : ℚ) ^ (9 : ℤ) := by
            rw [← zpow_natCast]; norm_num
        _ = (10 : ℚ) ^ (k : ℤ) * (10 : ℚ) ^ ((9 : ℤ) - k) := by
            rw [← zpow_add₀ hne]; congr 1; ring
        _ ≤ u := hstep
    have huu : u < (10 : ℚ) ^ (10 : ℕ) := by
      have hstep : u < (10 : ℚ) ^ ((k : ℤ) + 1) * (10 : ℚ) ^ ((9 : ℤ) - k) := by
        apply mul_lt_mul_of_pos_right _ hpos
        rw [show ((k : ℤ) + 1) = ((k + 1 : ℕ) : ℤ) by push_cast; ring, zpow_natCast]
        exact hku
      calc u < (10 : ℚ) ^ ((k : ℤ) + 1) * (10 : ℚ) ^ ((9 : ℤ) - k) := hstep
        _ = (10 : ℚ) ^ (10 : ℤ) := by rw [← zpow_add₀ hne]; congr 1; ring
        _ = (10 : ℚ) ^ (10 : ℕ) := by rw [← zpow_natCast]; norm_num
    exact ⟨u, heq, hul, huu, normalize_fixed_of_ten_digits u hul huu⟩

/-- Claim C5 (counterexample): the claim quantifies over every `t ≠ 0`, but
for `t = 1/2` the code's truncation-toward-zero of `log10` yields `oom = 0`,
so the normalized value `5 * 10^8` has only 9 integer digits and a second
normalization moves it again: idempotence and the 10-digit property both
fail. -/
theorem C5_counterexample :
    normalizeTimestamp (1 / 2 : ℚ) = .ok ((500000000 : ℚ)) ∧
      normalizeTimestamp (500000000 : ℚ) = .ok ((5000000000 : ℚ)) ∧
      (1 / 2 : ℚ) ≠ 0 ∧ ¬ ((10 : ℚ) ^ (9 : ℕ) ≤ (500000000 : ℚ)) := by
  refine ⟨?_, ?_, by norm_num, by norm_num⟩
  · have hoo : oomQ (1 / 2 : ℚ) = 0 := by
      have h2 : (1 / (1 / 2) : ℚ) = 2 := by norm_num
      have hlog : natLog10 (Int.toNat 2) = 0 := rfl
      rw [oomQ, if_neg (by norm_num), h2, show ⌊(2 : ℚ)⌋ = 2 from by norm_num, hlog]
      norm_num
    rw [normalizeTimestamp, if_neg (by norm_num)]
    simp only [hoo]
    norm_num
  · have hoo : oomQ (500000000 : ℚ) = 8 := by
      have hfl : ⌊(500000000 : ℚ)⌋ = 500000000 := by norm_num
      have hlog : natLog10 (Int.toNat 500000000) = 8 := rfl
      rw [oomQ, if_pos (by norm_num), hfl, hlog]
      norm_num
    rw [normalizeTimestamp, if_neg (by norm_num)]
    simp only [hoo]
    norm_num

/-- Claim C5 (witness): the amended theorem applied at `t = 2`. -/
theorem C5_witness :
    (1 : ℚ) ≤ 2 ∧ ∃ u, normalizeTimestamp (2 : ℚ) = .ok u ∧
      (10 : ℚ) ^ (9 : ℕ) ≤ u ∧ u < (10 : ℚ) ^ (10 : ℕ) ∧
      normalizeTimestamp u = .ok u :=
  ⟨by norm_num, C5_normalize_idempotent_ten_digits 2 (by norm_num)⟩

/-- Claim C1 (code defect): the claim — backed by the script's own comment
`Recognized by time = 0, lat = 90, long = -80` — says a `tp=lbs` line is a
pause marker iff `time = 0` AND `lat = 90` AND `lon = -80`.  The code's
guard `t != 0 and lat != 90 and lon != -80` instead sends every line with
`t = 0` OR `lat = 90` OR `lon = -80` to the pause branch.  Witnessed here:
the line `t = 1.5e9, lat = 90, lon = 5` does not match the sentinel triple,
yet `processLine` records it as a pause (lap close) and not as a GPS
sample. -/
theorem C1_pause_classification_is_disjunctive :
    processLine initReadState (.lbs 1500000000 90 5) =
        .ok { initReadState with lap := [(0, 0)], lss := (0, 0) } ∧
      ¬ ((1500000000 : ℚ) = 0 ∧ (90 : ℚ) = 90 ∧ (5 : ℚ) = -80) ∧
      (processLine initReadState (.lbs 1500000000 90 5)).toOption.map ReadState.gps =
        some [] := by
  refine ⟨?_, by norm_num, ?_⟩ <;> decide

/-- Claim C10: a heart-rate, cadence or altitude line whose timestamp field
is exactly `0` makes the whole read abort (`_normalize_timestamp` is applied
unconditionally on those branches and `log10(0)` is a domain error that
`read_file` turns into exit), whereas on the GPS branch a zero timestamp
takes the pause path and never reaches normalization. -/
theorem C10_zero_sensor_time_aborts :
    (∀ lines : List RawLine, (∃ l ∈ lines, isZeroTimeSensor l = true) →
        read_file lines = .error ()) ∧
      (∀ (s : ReadState) (lat lon : ℚ), ∃ s2, processLine s (.lbs 0 lat lon) = .ok s2) := by
  constructor
  · have hline : ∀ (s : ReadState) (l : RawLine), isZeroTimeSensor l = true →
        processLine s l = .error () := by
      intro s l h
      cases l with
      | hr t bpm =>
        have ht : t = 0 := by simpa [isZeroTimeSensor] using h
        subst ht
        simp [processLine, qtrunc, normalizeTimestamp]
      | sr t rpm =>
        have ht : t = 0 := by simpa [isZeroTimeSensor] using h
        subst ht
        simp [processLine, qtrunc, normalizeTimestamp]
      | alti t alt =>
        have ht : t = 0 := by simpa [isZeroTimeSensor] using h
        subst ht
        simp [processLine, qtrunc, normalizeTimestamp]
      | lbs t lat lon => simp [isZeroTimeSensor] at h
      | other => simp [isZeroTimeSensor] at h
    have hfold : ∀ (lines : List RawLine) (s : ReadState),
        (∃ l ∈ lines, isZeroTimeSensor l = true) →
        lines.foldlM processLine s = .error () := by
      intro lines
      induction lines with
      | nil => intro s h; simp at h
      | cons a rest ih =>
        intro s h
        rcases h with ⟨l, hl, hzero⟩
        rcases List.mem_cons.mp hl with rfl | hrest
        · rw [List.foldlM_cons, hline s l hzero]
          rfl
        · rw [List.foldlM_cons]
          cases hpa : processLine s a with
          | error e => cases e; rfl
          | ok s2 =>
            have := ih s2 ⟨l, hrest, hzero⟩
            simpa [hpa] using this
    intro lines hex
    rw [read_file, hfold lines initReadState hex]
  · intro s lat lon
    refine ⟨{ s with lap := s.lap ++ [s.lss], lss := (0, 0) }, ?_⟩
    rw [processLine, if_neg (by simp)]

/-- Claim C10 (witness): a single heart-rate line with `t = 0` aborts the
read. -/
theorem C10_witness :
    (∃ l ∈ [RawLine.hr 0 70], isZeroTimeSensor l = true) ∧
      read_file [RawLine.hr 0 70] = .error () :=
  ⟨⟨.hr 0 70, by simp, by decide⟩,
    C10_zero_sensor_time_aborts.1 [RawLine.hr 0 70] ⟨.hr 0 70, by simp, by decide⟩⟩

theorem mergeLoopAux_of_le (fuel : Nat) (l : List Entry) (i : Nat) (h : l.length ≤ i) :
    mergeLoopAux fuel l i = l := by
  cases fuel with
  | zero => rfl
  | succ fuel => rw [mergeLoopAux, dif_neg (by omega)]

theorem removeFirst_append (l1 l2 : List Entry) (e : Entry) (h : ∀ x ∈ l1, x ≠ e) :
    removeFirst (l1 ++ l2) e = l1 ++ removeFirst l2 e := by
  induction l1 with
  | nil => simp
  | cons a rest ih =>
    have ha : ¬(a = e) := h a (by simp)
    simp only [List.cons_append, removeFirst, if_neg ha]
    exact congrArg _ (ih (fun x hx => h x (by simp [hx])))

theorem removeFirst_cons_cons (p e : Entry) (rest : List Entry) :
    removeFirst (p :: e :: rest) e = p :: rest := by
  by_cases hpe : p = e
  · subst hpe
    rw [removeFirst, if_pos rfl]
  · rw [removeFirst, if_neg hpe, removeFirst, if_pos rfl]

theorem set_append_length (front l : List Entry) (x : Entry) :
    (front ++ l).set front.length x = front ++ l.set 0 x := by
  induction front with
  | nil => simp
  | cons a rest ih =>
    simp only [List.cons_append, List.length_cons, List.set]
    exact congrArg _ ih

theorem get_append_add (front l : List Entry) (k : Nat) (hk : k < l.length)
    (h : front.length + k < (front ++ l).length) :
    (front ++ l).get ⟨front.length + k, h⟩ = l.get ⟨k, hk⟩ := by
  simp [List.getElem_append_right]

theorem mergeLoopAux_bridge :
    ∀ (fuel : Nat) (rest front : List Entry) (p : Entry),
      rest.length ≤ fuel →
      (∀ f ∈ front, f.time < p.time) →
      List.Chain' Entry.timeLE (p :: rest) →
      (∀ T : ℚ, (p :: rest).countP (fun e => decide (e.time = T)) ≤ 2) →
      mergeLoopAux fuel (front ++ p :: rest) (front.length + 1) =
        front ++ coalescePairs (p :: rest) := by
  intro fuel
  induction fuel with
  | zero =>
    intro rest front p hfuel _ _ _
    have hnil : rest = [] := List.eq_nil_of_length_eq_zero (by omega)
    subst hnil
    rfl
  | succ fuel ih =>
    intro rest front p hfuel hfront hchain hcount
    cases rest with
    | nil =>
      rw [mergeLoopAux_of_le _ _ _ (by simp)]
      rfl
    | cons e rest' =>
      have hlen : front.length + 1 < (front ++ p :: e :: rest').length := by
        simp
      rw [mergeLoopAux, dif_pos hlen, dif_neg (by omega)]
      have hget_e : (front ++ p :: e :: rest').get ⟨front.length + 1, hlen⟩ = e :=
        get_append_add front (p :: e :: rest') 1 (by simp) hlen
      have hget_p : (front ++ p :: e :: rest').get
          ⟨front.length + 1 - 1, by simp⟩ = p := by
        have h0 : front.length + 1 - 1 = front.length + 0 := by omega
        simp only [h0]
        exact get_append_add front (p :: e :: rest') 0 (by simp) (by simp)
      rw [hget_e, hget_p]
      have hrelpe : Entry.timeLE p e := (List.chain'_cons.mp hchain).1
      by_cases he : e.time = p.time
      · rw [if_pos he]
        have hset : (front ++ p :: e :: rest').set (front.length + 1 - 1)
            (mergeFields p e) = front ++ mergeFields p e :: e :: rest' := by
          have h0 : front.length + 1 - 1 = front.length := by omega
          rw [h0, set_append_length]
          rfl
        rw [hset]
        have hne : ∀ f ∈ front, f ≠ e := by
          intro f hf hfe
          have := hfront f hf
          rw [hfe, he] at this
          exact lt_irrefl _ this
        rw [removeFirst_append front _ e hne, removeFirst_cons_cons]
        have hrhs : coalescePairs (p :: e :: rest') =
            mergeFields p e :: coalescePairs rest' := by
          rw [coalescePairs, if_pos he]
        rw [hrhs]
        cases rest' with
        | nil =>
          rw [mergeLoopAux_of_le _ _ _ (by simp)]
          rfl
        | cons r0 rest2 =>
          have hchain2 : List.Chain' Entry.timeLE (r0 :: rest2) :=
            (List.chain'_cons.mp (List.chain'_cons.mp hchain).2).2
          have her0 : Entry.timeLE e r0 :=
            (List.chain'_cons.mp (List.chain'_cons.mp hchain).2).1
          have hr0 : p.time < r0.time := by
            rcases lt_or_eq_of_le (he ▸ her0 : p.time ≤ r0.time) with h | h
            · exact h
            · exfalso
              have h3 := hcount p.time
              have e1 : (decide (p.time = p.time) : Bool) = true := by simp
              have e2 : (decide (e.time = p.time) : Bool) = true := by simp [he]
              have e3 : (decide (r0.time = p.time) : Bool) = true := by simp [← h]
              simp only [List.countP_cons, e1, e2, e3] at h3
              norm_num at h3
              omega
          have hfront2 : ∀ f ∈ front ++ [mergeFields p e], f.time < r0.time := by
            intro f hf
            rcases List.mem_append.mp hf with hf | hf
            · exact lt_trans (hfront f hf) hr0
            · have : f = mergeFields p e := by simpa using hf
              rw [this]
              exact hr0
          have hcount2 : ∀ T : ℚ,
              (r0 :: rest2).countP (fun x => decide (x.time = T)) ≤ 2 := by
            intro T
            have h4 := hcount T
            simp only [List.countP_cons] at h4 ⊢
            omega
          have hfuel2 : rest2.length ≤ fuel := by
            simp at hfuel
            omega
          have hIH := ih rest2 (front ++ [mergeFields p e]) r0 hfuel2 hfront2
            hchain2 hcount2
          simp only [List.append_assoc, List.singleton_append,
            List.length_append, List.length_cons, List.length_nil] at hIH
          have hidx : front.length + 1 + 1 = front.length + 2 := by omega
          rw [show front.length + 0 + 1 + 1 = front.length + 1 + 1 by omega] at hIH
          exact hIH
      · rw [if_neg he]
        have hpe : p.time < e.time :=
          lt_of_le_of_ne hrelpe (fun hx => he hx.symm)
        have hrhs : coalescePairs (p :: e :: rest') =
            p :: coalescePairs (e :: rest') := by
          rw [coalescePairs, if_neg he]
        rw [hrhs]
        have hfront2 : ∀ f ∈ front ++ [p], f.time < e.time := by
          intro f hf
          rcases List.mem_append.mp hf with hf | hf
          · exact lt_trans (hfront f hf) hpe
          · have : f = p := by simpa using hf
            rw [this]
            exact hpe
        have hcount2 : ∀ T : ℚ,
            (e :: rest').countP (fun x => decide (x.time = T)) ≤ 2 := by
          intro T
          have h4 := hcount T
          simp only [List.countP_cons] at h4 ⊢
          omega
        have hfuel2 : rest'.length ≤ fuel := by
          simp at hfuel
          omega
        have hIH := ih rest' (front ++ [p]) e hfuel2 hfront2
          (List.chain'_cons.mp hchain).2 hcount2
        simp only [List.append_assoc, List.singleton_append,
          List.length_append, List.length_cons, List.length_nil] at hIH
        rw [show front.length + 0 + 1 + 1 = front.length + 1 + 1 by omega] at hIH
        exact hIH

/-- Claim C2 (code defect): `merge_data` removes a row from the list it is
iterating over, so Python's iterator skips the row after every coalesced
duplicate.  With three rows sharing timestamp `10` (one per GPS, altitude
and heart-rate stream) the merged output still contains two records with
timestamp `10`, contradicting "at most one record per distinct
timestamp". -/
theorem C2_merge_keeps_duplicate_timestamp :
    merge_data
        ⟨[⟨10, .num 1, .num 2, .blank, .num 0, .blank, .blank⟩],
          [⟨10, .blank, .blank, .num 5, .blank, .blank, .blank⟩],
          [⟨10, .blank, .blank, .blank, .blank, .num 70, .blank⟩], [], []⟩ =
        [⟨10, .num 1, .num 2, .num 5, .num 0, .blank, .blank⟩,
          ⟨10, .blank, .blank, .blank, .blank, .num 70, .blank⟩] ∧
      (merge_data
          ⟨[⟨10, .num 1, .num 2, .blank, .num 0, .blank, .blank⟩],
            [⟨10, .blank, .blank, .num 5, .blank, .blank, .blank⟩],
            [⟨10, .blank, .blank, .blank, .blank, .num 70, .blank⟩], [],
            []⟩).map Entry.time = [10, 10] := by
  constructor <;> decide

/-- Claim C3 (counterexample): the claim says every field carried non-empty
by a contributing sample — *including numeric values such as 0* — appears
in the merged record.  A cadence sample carrying `0` at the same timestamp
as a GPS sample is coalesced with `if entry[x]:`, which is false for `0`,
so the merged record keeps its blank cadence slot and the value `0` never
appears. -/
theorem C3_counterexample :
    merge_data
        ⟨[⟨10, .num 1, .num 2, .blank, .num 3, .blank, .blank⟩], [], [],
          [⟨10, .blank, .blank, .blank, .blank, .blank, .num 0⟩], []⟩ =
        [⟨10, .num 1, .num 2, .blank, .num 3, .blank, .blank⟩] ∧
      (⟨10, .blank, .blank, .blank, .blank, .blank, .num 0⟩ : Entry).cad =
        .num 0 ∧
      (merge_data
          ⟨[⟨10, .num 1, .num 2, .blank, .num 3, .blank, .blank⟩], [], [],
            [⟨10, .blank, .blank, .blank, .blank, .blank, .num 0⟩],
            []⟩).map Entry.cad = [.blank] := by
  refine ⟨by decide, rfl, by decide⟩

/-- Claim C3 (amended): for datasets in which every timestamp occurs at most
twice across the four streams, `merge_data` equals the structural
pairwise-coalescing function: one record per duplicated timestamp, whose
slots are the field-wise union of the two contributing rows, the later row
overwriting a slot only when its value is truthy (non-empty and non-zero —
a numeric `0` counts as empty and never overwrites nor appears). -/
theorem C3_merge_truthy_union (d : HiData)
    (hcount : ∀ T : ℚ,
      (d.gps ++ d.alti ++ d.hr ++ d.cad).countP (fun e => decide (e.time = T)) ≤ 2) :
    merge_data d = coalescePairs (sortedConcat d) ∧
      ∀ a b : Entry, (mergeFields a b).time = a.time ∧
        (mergeFields a b).lat = (if b.lat.truthy then b.lat else a.lat) ∧
        (mergeFields a b).lon = (if b.lon.truthy then b.lon else a.lon) ∧
        (mergeFields a b).alti = (if b.alti.truthy then b.alti else a.alti) ∧
        (mergeFields a b).dist = (if b.dist.truthy then b.dist else a.dist) ∧
        (mergeFields a b).hr = (if b.hr.truthy then b.hr else a.hr) ∧
        (mergeFields a b).cad = (if b.cad.truthy then b.cad else a.cad) := by
  constructor
  · have hcount2 : ∀ T : ℚ,
        (sortedConcat d).countP (fun e => decide (e.time = T)) ≤ 2 := by
      intro T
      rw [sortedConcat, sortByTime,
        (List.perm_insertionSort Entry.timeLE _).countP_eq]
      exact hcount T
    have hchain : List.Chain' Entry.timeLE (sortedConcat d) :=
      (List.sorted_insertionSort Entry.timeLE _).chain'
    rcases hsc : sortedConcat d with _ | ⟨a, rest⟩
    · rw [merge_data, hsc]
      rfl
    · rw [merge_data, hsc]
      have hstep : mergeLoopAux (rest.length + 1) (a :: rest) 0 =
          mergeLoopAux rest.length (a :: rest) 1 := by
        rw [mergeLoopAux, dif_pos (by simp), dif_pos rfl]
      rw [show (a :: rest).length = rest.length + 1 from rfl, hstep]
      have hb := mergeLoopAux_bridge rest.length rest [] a le_rfl (by simp)
        (hsc ▸ hchain) (fun T => hsc ▸ hcount2 T)
      simpa using hb
  · intro a b
    exact ⟨rfl, rfl, rfl, rfl, rfl, rfl, rfl⟩

/-- Claim C3 (witness): the amended theorem applied to a dataset of one GPS
row and one altitude row sharing a timestamp. -/
theorem C3_witness :
    (∀ T : ℚ,
      (([⟨10, .num 1, .num 2, .blank, .num 0, .blank, .blank⟩] : List Entry) ++
          ([⟨10, .blank, .blank, .num 5, .blank, .blank, .blank⟩] : List Entry) ++
          ([] : List Entry) ++
          ([] : List Entry)).countP (fun e => decide (e.time = T)) ≤ 2) ∧
      merge_data
          (HiData.mk [⟨10, .num 1, .num 2, .blank, .num 0, .blank, .blank⟩]
            [⟨10, .blank, .blank, .num 5, .blank, .blank, .blank⟩] [] [] []) =
        coalescePairs (sortedConcat
          (HiData.mk [⟨10, .num 1, .num 2, .blank, .num 0, .blank, .blank⟩]
            [⟨10, .blank, .blank, .num 5, .blank, .blank, .blank⟩] [] [] [])) := by
  have hc : ∀ T : ℚ,
      (([⟨10, .num 1, .num 2, .blank, .num 0, .blank, .blank⟩] : List Entry) ++
        ([⟨10, .blank, .blank, .num 5, .blank, .blank, .blank⟩] : List Entry) ++
        ([] : List Entry) ++
        ([] : List Entry)).countP (fun e => decide (e.time = T)) ≤ 2 := by
    intro T
    exact le_trans (List.countP_le_length _) (by simp)
  exact ⟨hc,
    (C3_merge_truthy_union
      (HiData.mk [⟨10, .num 1, .num 2, .blank, .num 0, .blank, .blank⟩]
        [⟨10, .blank, .blank, .num 5, .blank, .blank, .blank⟩] [] [] [])
      (fun T => hc T)).1⟩

theorem Field.toQ_eq_some {f : Field} {q : ℚ} (h : f.toQ = some q) : f = .num q := by
  cases f with
  | blank => simp [Field.toQ] at h
  | num r =>
    simp [Field.toQ] at h
    rw [h]

theorem processGpsAux_chain (dist : ℚ → ℚ → ℚ → ℚ → ℚ)
    (hd : ∀ a b c d, 0 ≤ dist a b c d) :
    ∀ (rest : List Entry) (prev : Entry) (res : List Entry),
      processGpsAux dist prev rest = .ok res →
      List.Chain' (stepR dist) (prev :: res) := by
  intro rest
  induction rest with
  | nil =>
    intro prev res h
    rw [processGpsAux] at h
    cases h
    simp
  | cons e rest ih =>
    intro prev res h
    rw [processGpsAux] at h
    cases hla : e.lat.toQ with
    | none => simp [hla] at h
    | some la =>
    cases hlo : e.lon.toQ with
    | none => simp [hla, hlo] at h
    | some lo =>
    cases hpla : prev.lat.toQ with
    | none => simp [hla, hlo, hpla] at h
    | some pla =>
    cases hplo : prev.lon.toQ with
    | none => simp [hla, hlo, hpla, hplo] at h
    | some plo =>
    cases hpd : prev.dist.toQ with
    | none => simp [hla, hlo, hpla, hplo, hpd] at h
    | some pd =>
    simp only [hla, hlo, hpla, hplo, hpd] at h
    cases hrec : processGpsAux dist { e with dist := .num (dist la lo pla plo + pd) } rest with
    | error u => simp [hrec] at h
    | ok tail =>
      simp only [hrec] at h
      cases h
      refine List.chain'_cons.mpr ⟨?_, ih _ tail hrec⟩
      exact ⟨pd, dist la lo pla plo + pd, la, lo, pla, plo,
        Field.toQ_eq_some hpd, rfl, Field.toQ_eq_some hla, Field.toQ_eq_some hlo,
        Field.toQ_eq_some hpla, Field.toQ_eq_some hplo, rfl,
        le_add_of_nonneg_left (hd la lo pla plo)⟩

theorem processGps_shape (dist : ℚ → ℚ → ℚ → ℚ → ℚ) :
    ∀ (gps res : List Entry), process_gps dist gps = .ok res →
      (gps = [] ∧ res = []) ∨
      ∃ e rest tail, gps = e :: rest ∧
        res = { e with dist := Field.num 0 } :: tail ∧
        processGpsAux dist { e with dist := Field.num 0 } rest = .ok tail := by
  intro gps res h
  cases gps with
  | nil =>
    rw [process_gps] at h
    cases h
    exact Or.inl ⟨rfl, rfl⟩
  | cons e rest =>
    rw [process_gps] at h
    cases hrec : processGpsAux dist { e with dist := Field.num 0 } rest with
    | error u => simp [hrec] at h
    | ok tail =>
      simp only [hrec] at h
      cases h
      exact Or.inr ⟨e, rest, tail, rfl, rfl, hrec⟩

/-- Claim C4: for a GPS sequence sorted ascending by time, `process_gps`
gives the first row cumulative distance exactly `0`, gives every later row
the previous row's cumulative distance plus the pairwise distance to the
previous row (`stepR`), and the cumulative-distance series is non-decreasing
— for any nonnegative pairwise distance function (the spec's geodesic
distance; the floating-point Vincenty iteration itself is abstracted). -/
theorem C4_cumulative_distance (dist : ℚ → ℚ → ℚ → ℚ → ℚ)
    (gps res : List Entry)
    (hd : ∀ a b c d, 0 ≤ dist a b c d)
    (hsorted : List.Chain' Entry.timeLE gps)
    (hres : process_gps dist gps = .ok res) :
    (∀ h0 : 0 < res.length, (res.get ⟨0, h0⟩).dist = .num 0) ∧
      List.Chain' (stepR dist) res ∧
      (∀ i j (hi : i < res.length) (hj : j < res.length), i ≤ j →
        ∃ di dj, (res.get ⟨i, hi⟩).dist = .num di ∧
          (res.get ⟨j, hj⟩).dist = .num dj ∧ di ≤ dj) := by
  rcases processGps_shape dist gps res hres with ⟨_, rfl⟩ | ⟨e, rest, tail, rfl, rfl, hrec⟩
  · exact ⟨fun h0 => absurd h0 (by simp), by simp, fun i j hi => absurd hi (by simp)⟩
  · have hchain0 : List.Chain' (stepR dist) ({ e with dist := Field.num 0 } :: tail) :=
      processGpsAux_chain dist hd rest _ tail hrec
    refine ⟨fun h0 => rfl, hchain0, ?_⟩
    have hnum : ∀ k (hk : k < (({ e with dist := Field.num 0 } :: tail) : List Entry).length),
        ((({ e with dist := Field.num 0 } :: tail) : List Entry).get ⟨k, hk⟩).dist =
          .num (((({ e with dist := Field.num 0 } :: tail) : List Entry).get ⟨k, hk⟩).distVal) := by
      intro k hk
      cases k with
      | zero => rfl
      | succ k =>
        have hstep := List.chain'_iff_get.mp hchain0 k (by simp at hk ⊢; omega)
        rcases hstep with ⟨d0, d1, la, lo, pla, plo, _, hb, _⟩
        simp only [List.get_eq_getElem, List.getElem_cons_succ] at hb ⊢
        simp [Entry.distVal, hb]
    have hadj : ∀ k (hk1 : k + 1 < (({ e with dist := Field.num 0 } :: tail) : List Entry).length),
        ((({ e with dist := Field.num 0 } :: tail) : List Entry).get ⟨k, by omega⟩).distVal ≤
          ((({ e with dist := Field.num 0 } :: tail) : List Entry).get ⟨k + 1, hk1⟩).distVal := by
      intro k hk1
      have hstep := List.chain'_iff_get.mp hchain0 k (by simp at hk1 ⊢; omega)
      rcases hstep with ⟨d0, d1, la, lo, pla, plo, ha, hb, _, _, _, _, _, hle⟩
      simp only [List.get_eq_getElem, List.getElem_cons_succ] at ha hb ⊢
      simp only [Entry.distVal, ha, hb]
      exact hle
    intro i j hi hj hij
    refine ⟨_, _, hnum i hi, hnum j hj, ?_⟩
    have hmono : ∀ jj (hjj : jj < (({ e with dist := Field.num 0 } :: tail) : List Entry).length),
        i ≤ jj →
        ((({ e with dist := Field.num 0 } :: tail) : List Entry).get ⟨i, hi⟩).distVal ≤
          ((({ e with dist := Field.num 0 } :: tail) : List Entry).get ⟨jj, hjj⟩).distVal := by
      intro jj
      induction jj with
      | zero =>
        intro hjj hij0
        have hi0 : i = 0 := by omega
        subst hi0
        exact le_refl _
      | succ jj ihj =>
        intro hjj hij1
        rcases Nat.lt_or_ge i (jj + 1) with hlt | hge
        · have hjlen : jj < (({ e with dist := Field.num 0 } :: tail) : List Entry).length := by
            omega
          exact le_trans (ihj hjlen (by omega)) (hadj jj hjj)
        · have hieq : i = jj + 1 := by omega
          subst hieq
          exact le_refl _
    exact hmono j hj hij

/-- Claim C4 (witness): the theorem applied to the constant pairwise
distance `7` on a two-point sorted GPS list. -/
theorem C4_witness :
    (∀ a b c d : ℚ, 0 ≤ exDist a b c d) ∧
      List.Chain' Entry.timeLE
        [⟨100, .num 1, .num 2, .blank, .blank, .blank, .blank⟩,
          ⟨200, .num 3, .num 4, .blank, .blank, .blank, .blank⟩] ∧
      process_gps exDist
          [⟨100, .num 1, .num 2, .blank, .blank, .blank, .blank⟩,
            ⟨200, .num 3, .num 4, .blank, .blank, .blank, .blank⟩] =
        .ok [⟨100, .num 1, .num 2, .blank, .num 0, .blank, .blank⟩,
          ⟨200, .num 3, .num 4, .blank, .num 7, .blank, .blank⟩] ∧
      ((∀ h0 : 0 <
          ([⟨100, .num 1, .num 2, .blank, .num 0, .blank, .blank⟩,
            ⟨200, .num 3, .num 4, .blank, .num 7, .blank, .blank⟩] : List Entry).length,
          (([⟨100, .num 1, .num 2, .blank, .num 0, .blank, .blank⟩,
            ⟨200, .num 3, .num 4, .blank, .num 7, .blank, .blank⟩] : List Entry).get
              ⟨0, h0⟩).dist = .num 0) ∧
        List.Chain' (stepR exDist)
          [⟨100, .num 1, .num 2, .blank, .num 0, .blank, .blank⟩,
            ⟨200, .num 3, .num 4, .blank, .num 7, .blank, .blank⟩] ∧
        (∀ i j (hi : i <
            ([⟨100, .num 1, .num 2, .blank, .num 0, .blank, .blank⟩,
              ⟨200, .num 3, .num 4, .blank, .num 7, .blank, .blank⟩] : List Entry).length)
            (hj : j <
            ([⟨100, .num 1, .num 2, .blank, .num 0, .blank, .blank⟩,
              ⟨200, .num 3, .num 4, .blank, .num 7, .blank, .blank⟩] : List Entry).length),
            i ≤ j → ∃ di dj,
            (([⟨100, .num 1, .num 2, .blank, .num 0, .blank, .blank⟩,
              ⟨200, .num 3, .num 4, .blank, .num 7, .blank, .blank⟩] : List Entry).get
                ⟨i, hi⟩).dist = .num di ∧
            (([⟨100, .num 1, .num 2, .blank, .num 0, .blank, .blank⟩,
              ⟨200, .num 3, .num 4, .blank, .num 7, .blank, .blank⟩] : List Entry).get
                ⟨j, hj⟩).dist = .num dj ∧ di ≤ dj)) := by
  have hd : ∀ a b c d : ℚ, 0 ≤ exDist a b c d := by
    intro a b c d
    norm_num [exDist]
  have hs : List.Chain' Entry.timeLE
      [⟨100, .num 1, .num 2, .blank, .blank, .blank, .blank⟩,
        ⟨200, .num 3, .num 4, .blank, .blank, .blank, .blank⟩] := by
    simp [List.chain'_cons, Entry.timeLE]
    norm_num
  have hres : process_gps exDist
      [⟨100, .num 1, .num 2, .blank, .blank, .blank, .blank⟩,
        ⟨200, .num 3, .num 4, .blank, .blank, .blank, .blank⟩] =
      .ok [⟨100, .num 1, .num 2, .blank, .num 0, .blank, .blank⟩,
        ⟨200, .num 3, .num 4, .blank, .num 7, .blank, .blank⟩] := by
    norm_num [process_gps, processGpsAux, Field.toQ, exDist]
  exact ⟨hd, hs, hres, C4_cumulative_distance exDist _ _ hd hs hres⟩

theorem lapScanAux_eq_bounds (t : ℚ) :
    ∀ (gps : List Entry) (sd : Option Field),
      ∃ sd2, lapScanAux t t gps sd = .ok (sd2, none) := by
  intro gps
  induction gps with
  | nil => intro sd; exact ⟨sd, rfl⟩
  | cons g rest ih =>
    intro sd
    by_cases hg : g.time = t
    · rw [lapScanAux, if_pos hg]
      exact ih _
    · rw [lapScanAux, if_neg hg, if_neg hg]
      exact ih sd

/-- Claim C9: when a lap's start time equals its stop time, the start-time
match (`if`) and the stop-time match (`elif`) are mutually exclusive
branches evaluated over the same rows, so the lap's distance is never
appended — the record stays `[t, t, 0]` — even though a GPS row exists at
exactly that boundary timestamp. -/
theorem C9_single_point_lap_distance_unset (gps : List Entry) (t : ℚ)
    (hex : ∃ g ∈ gps, g.time = t) :
    calculate_lap_stats gps [(t, t)] = .ok [[t, t, 0]] := by
  obtain ⟨sd2, hscan⟩ := lapScanAux_eq_bounds t gps none
  simp [calculate_lap_stats, calcLapStatsAux, hscan]

/-- Claim C9 (witness): a single GPS row at time `5` and the lap `(5, 5)`. -/
theorem C9_witness :
    (∃ g ∈ [(⟨5, .num 1, .num 2, .blank, .num 0, .blank, .blank⟩ : Entry)], g.time = 5) ∧
      calculate_lap_stats [⟨5, .num 1, .num 2, .blank, .num 0, .blank, .blank⟩]
        [(5, 5)] = .ok [[5, 5, 0]] := by
  have hex : ∃ g ∈ [(⟨5, .num 1, .num 2, .blank, .num 0, .blank, .blank⟩ : Entry)],
      g.time = 5 :=
    ⟨⟨5, .num 1, .num 2, .blank, .num 0, .blank, .blank⟩, by simp, rfl⟩
  exact ⟨hex, C9_single_point_lap_distance_unset _ 5 hex⟩

theorem lapScanAux_no_stop (l0 l1 : ℚ) :
    ∀ (gps : List Entry) (sd : Option Field), (∀ g ∈ gps, g.time ≠ l1) →
      ∃ sd2, lapScanAux l0 l1 gps sd = .ok (sd2, none) := by
  intro gps
  induction gps with
  | nil => intro sd _; exact ⟨sd, rfl⟩
  | cons g rest ih =>
    intro sd h
    by_cases hg0 : g.time = l0
    · rw [lapScanAux, if_pos hg0]
      exact ih _ (fun x hx => h x (by simp [hx]))
    · rw [lapScanAux, if_neg hg0, if_neg (h g (by simp))]
      exact ih sd (fun x hx => h x (by simp [hx]))

theorem lapScanAux_after_start (l0 l1 : ℚ) (g1 : Entry) (d0 d1 : ℚ)
    (hg1t : g1.time = l1) (hd1 : g1.dist = .num d1) :
    ∀ (rest : List Entry), List.Pairwise Entry.timeLT rest →
      (∀ x ∈ rest, x.time ≠ l0) → g1 ∈ rest →
      lapScanAux l0 l1 rest (some (Field.num d0)) =
        .ok (some (Field.num d0), some (d1 - d0)) := by
  intro rest
  induction rest with
  | nil => intro _ _ hmem; simp at hmem
  | cons h t iht =>
    intro hpw hno hmem
    have hh0 : ¬ (h.time = l0) := hno h (by simp)
    by_cases hh1 : h.time = l1
    · have hg1h : g1 = h := by
        rcases List.mem_cons.mp hmem with rfl | hmem2
        · rfl
        · exfalso
          have hlt := (List.pairwise_cons.mp hpw).1 g1 hmem2
          rw [Entry.timeLT, hh1, hg1t] at hlt
          exact lt_irrefl _ hlt
      rw [lapScanAux, if_neg hh0, if_pos hh1, ← hg1h, hd1]
      rfl
    · have hg1m : g1 ∈ t := by
        rcases List.mem_cons.mp hmem with rfl | hmem2
        · exact absurd hg1t hh1
        · exact hmem2
      rw [lapScanAux, if_neg hh0, if_neg hh1]
      exact iht (List.pairwise_cons.mp hpw).2 (fun x hx => hno x (by simp [hx])) hg1m

theorem lapScanAux_found (l0 l1 : ℚ) (hl : l0 < l1) (g0 g1 : Entry) (d0 d1 : ℚ)
    (hg0t : g0.time = l0) (hg1t : g1.time = l1)
    (hd0 : g0.dist = .num d0) (hd1 : g1.dist = .num d1) :
    ∀ (gps : List Entry), List.Pairwise Entry.timeLT gps →
      g0 ∈ gps → g1 ∈ gps → ∀ sd,
      lapScanAux l0 l1 gps sd = .ok (some (Field.num d0), some (d1 - d0)) := by
  intro gps
  induction gps with
  | nil => intro _ hm; simp at hm
  | cons g rest ih =>
    intro hpw hm0 hm1 sd
    by_cases hg0 : g.time = l0
    · have hgg0 : g0 = g := by
        rcases List.mem_cons.mp hm0 with rfl | hm0'
        · rfl
        · exfalso
          have hlt := (List.pairwise_cons.mp hpw).1 g0 hm0'
          rw [Entry.timeLT, hg0, hg0t] at hlt
          exact lt_irrefl _ hlt
      have hm1' : g1 ∈ rest := by
        rcases List.mem_cons.mp hm1 with rfl | hm1'
        · exfalso
          rw [hg0] at hg1t
          exact absurd hg1t (ne_of_lt hl)
        · exact hm1'
      rw [lapScanAux, if_pos hg0, ← hgg0, hd0]
      have hno : ∀ x ∈ rest, x.time ≠ l0 := by
        intro x hx hxx
        have hlt := (List.pairwise_cons.mp hpw).1 x hx
        rw [Entry.timeLT, hg0, hxx] at hlt
        exact lt_irrefl _ hlt
      exact lapScanAux_after_start l0 l1 g1 d0 d1 hg1t hd1 rest
        (List.pairwise_cons.mp hpw).2 hno hm1'
    · by_cases hg1 : g.time = l1
      · exfalso
        have hm0' : g0 ∈ rest := by
          rcases List.mem_cons.mp hm0 with rfl | hm0'
          · exact absurd hg0t hg0
          · exact hm0'
        have hlt := (List.pairwise_cons.mp hpw).1 g0 hm0'
        rw [Entry.timeLT, hg1, hg0t] at hlt
        exact lt_asymm hl hlt
      · have hm0' : g0 ∈ rest := by
          rcases List.mem_cons.mp hm0 with rfl | h'
          · exact absurd hg0t hg0
          · exact h'
        have hm1' : g1 ∈ rest := by
          rcases List.mem_cons.mp hm1 with rfl | h'
          · exact absurd hg1t hg1
          · exact h'
        rw [lapScanAux, if_neg hg0, if_neg hg1]
        exact ih (List.pairwise_cons.mp hpw).2 hm0' hm1' sd

theorem calcLapStatsAux_spec (gps : List Entry)
    (hsorted : List.Pairwise Entry.timeLT gps) :
    ∀ (laps : List (ℚ × ℚ)) (sd : Option Field) (res : List (List ℚ)),
      calcLapStatsAux gps laps sd = .ok res →
      res.length = laps.length ∧
      ∀ i (hi : i < laps.length) (l0 l1 : ℚ), laps.get ⟨i, hi⟩ = (l0, l1) →
        ∃ r, res[i]? = some r ∧
          (r = [l0, l1, l1 - l0] ∨ ∃ dd, r = [l0, l1, l1 - l0, dd]) ∧
          ((∀ g ∈ gps, g.time ≠ l1) → r = [l0, l1, l1 - l0]) ∧
          (∀ g0 g1 (d0 d1 : ℚ), g0 ∈ gps → g1 ∈ gps → g0.time = l0 →
            g1.time = l1 → l0 < l1 → g0.dist = .num d0 → g1.dist = .num d1 →
            r = [l0, l1, l1 - l0, d1 - d0]) := by
  intro laps
  induction laps with
  | nil =>
    intro sd res h
    rw [calcLapStatsAux] at h
    cases h
    exact ⟨rfl, fun i hi => absurd hi (by simp)⟩
  | cons lap laps ih =>
    intro sd res h
    rcases lap with ⟨l0, l1⟩
    rw [calcLapStatsAux] at h
    cases hscan : lapScanAux l0 l1 gps sd with
    | error e =>
      simp only [hscan] at h
      exact Except.noConfusion h
    | ok pair =>
      rcases pair with ⟨sd2, dopt⟩
      simp only [hscan] at h
      cases hrec : calcLapStatsAux gps laps sd2 with
      | error e =>
        simp only [hrec] at h
        exact Except.noConfusion h
      | ok rest =>
        simp only [hrec] at h
        cases h
        obtain ⟨hlen, hall⟩ := ih sd2 rest hrec
        constructor
        · simp [hlen]
        · intro i hi l0' l1' hgeti
          cases i with
          | zero =>
            simp only [List.get_eq_getElem, List.getElem_cons_zero] at hgeti
            obtain ⟨h1, h2⟩ := Prod.mk.injEq .. ▸ hgeti
            subst h1
            subst h2
            cases dopt with
            | none =>
              refine ⟨[l0, l1, l1 - l0], by simp, Or.inl rfl, fun _ => rfl, ?_⟩
              intro g0 g1 d0 d1 hm0 hm1 ht0 ht1 hlt hd0 hd1
              have hB := lapScanAux_found l0 l1 hlt g0 g1 d0 d1 ht0 ht1 hd0 hd1
                gps hsorted hm0 hm1 sd
              rw [hscan] at hB
              injection hB with hpair
              have hdopt : (none : Option ℚ) = some (d1 - d0) :=
                congrArg Prod.snd hpair
              exact absurd hdopt (by simp)
            | some dd =>
              refine ⟨[l0, l1, l1 - l0, dd], by simp, Or.inr ⟨dd, rfl⟩, ?_, ?_⟩
              · intro hnostop
                obtain ⟨sd2', hscan'⟩ := lapScanAux_no_stop l0 l1 gps sd hnostop
                rw [hscan] at hscan'
                injection hscan' with hpair
                have hdopt : some dd = (none : Option ℚ) :=
                  congrArg Prod.snd hpair
                exact absurd hdopt (by simp)
              · intro g0 g1 d0 d1 hm0 hm1 ht0 ht1 hlt hd0 hd1
                have hB := lapScanAux_found l0 l1 hlt g0 g1 d0 d1 ht0 ht1 hd0 hd1
                  gps hsorted hm0 hm1 sd
                rw [hscan] at hB
                injection hB with hpair
                have hdopt : some dd = some (d1 - d0) := congrArg Prod.snd hpair
                injection hdopt with hdd
                rw [hdd]
          | succ i =>
            simp only [List.get_eq_getElem, List.getElem_cons_succ] at hgeti
            have hi' : i < laps.length := by
              simp at hi
              omega
            obtain ⟨r, hr, hshape, hnostop, hfound⟩ :=
              hall i hi' l0' l1' (by simpa using hgeti)
            exact ⟨r, by simpa using hr, hshape, hnostop, hfound⟩

/-- Claim C6 (amended): for a strictly time-sorted GPS list, every lap
record starts with `[start, stop, stop - start]` (the duration formula);
when GPS rows exist at both boundary timestamps the appended distance is
`cumulative(stop) - cumulative(start)`; when no GPS row exists at exactly
the stop time the distance is left unset (three-element record).  The
original claim's "or start_time" failure case is dropped: a missing start
match does not leave the distance unset (see the counterexample, where a
stale `start_distance` from the previous lap is silently reused). -/
theorem C6_lap_stats_formulas (gps : List Entry) (laps : List (ℚ × ℚ))
    (res : List (List ℚ)) (hsorted : List.Pairwise Entry.timeLT gps)
    (hres : calculate_lap_stats gps laps = .ok res) :
    res.length = laps.length ∧
      ∀ i (hi : i < laps.length) (l0 l1 : ℚ), laps.get ⟨i, hi⟩ = (l0, l1) →
        ∃ r, res[i]? = some r ∧
          (r = [l0, l1, l1 - l0] ∨ ∃ dd, r = [l0, l1, l1 - l0, dd]) ∧
          ((∀ g ∈ gps, g.time ≠ l1) → r = [l0, l1, l1 - l0]) ∧
          (∀ g0 g1 (d0 d1 : ℚ), g0 ∈ gps → g1 ∈ gps → g0.time = l0 →
            g1.time = l1 → l0 < l1 → g0.dist = .num d0 → g1.dist = .num d1 →
            r = [l0, l1, l1 - l0, d1 - d0]) :=
  calcLapStatsAux_spec gps hsorted laps none res hres

/-- Claim C6 (counterexample): the claim says a lap with no GPS record at
exactly its start time gets no distance.  With laps `(5,10)` and `(20,25)`
and GPS rows only at `5`, `10`, `25`, the second lap has no row at `20`,
yet its record comes out as `[20, 25, 5, 300]` — a distance computed from
the stale `start_distance` of the previous lap, not left undefined. -/
theorem C6_counterexample :
    calculate_lap_stats
        [⟨5, .num 1, .num 2, .blank, .num 0, .blank, .blank⟩,
          ⟨10, .num 1, .num 2, .blank, .num 100, .blank, .blank⟩,
          ⟨25, .num 1, .num 2, .blank, .num 300, .blank, .blank⟩]
        [(5, 10), (20, 25)] =
      .ok [[5, 10, 5, 100], [20, 25, 5, 300]] ∧
      ∀ g ∈ [(⟨5, .num 1, .num 2, .blank, .num 0, .blank, .blank⟩ : Entry),
          ⟨10, .num 1, .num 2, .blank, .num 100, .blank, .blank⟩,
          ⟨25, .num 1, .num 2, .blank, .num 300, .blank, .blank⟩],
        g.time ≠ (20 : ℚ) := by
  constructor
  · norm_num [calculate_lap_stats, calcLapStatsAux, lapScanAux, lapStopCalc]
  · decide

/-- Claim C6 (witness): the amended theorem applied to two GPS rows at `5`
and `10` and the single lap `(5, 10)`. -/
theorem C6_witness :
    List.Pairwise Entry.timeLT
        [⟨5, .num 1, .num 2, .blank, .num 0, .blank, .blank⟩,
          ⟨10, .num 1, .num 2, .blank, .num 100, .blank, .blank⟩] ∧
      calculate_lap_stats
          [⟨5, .num 1, .num 2, .blank, .num 0, .blank, .blank⟩,
            ⟨10, .num 1, .num 2, .blank, .num 100, .blank, .blank⟩]
          [(5, 10)] = .ok [[5, 10, 5, 100]] ∧
      (([[5, 10, 5, 100]] : List (List ℚ)).length = ([((5 : ℚ), (10 : ℚ))] : List (ℚ × ℚ)).length ∧
        ∀ i (hi : i < ([((5 : ℚ), (10 : ℚ))] : List (ℚ × ℚ)).length) (l0 l1 : ℚ),
          ([((5 : ℚ), (10 : ℚ))] : List (ℚ × ℚ)).get ⟨i, hi⟩ = (l0, l1) →
          ∃ r, ([[5, 10, 5, 100]] : List (List ℚ))[i]? = some r ∧
            (r = [l0, l1, l1 - l0] ∨ ∃ dd, r = [l0, l1, l1 - l0, dd]) ∧
            ((∀ g ∈ [(⟨5, .num 1, .num 2, .blank, .num 0, .blank, .blank⟩ : Entry),
                ⟨10, .num 1, .num 2, .blank, .num 100, .blank, .blank⟩],
              g.time ≠ l1) → r = [l0, l1, l1 - l0]) ∧
            (∀ g0 g1 (d0 d1 : ℚ),
              g0 ∈ [(⟨5, .num 1, .num 2, .blank, .num 0, .blank, .blank⟩ : Entry),
                ⟨10, .num 1, .num 2, .blank, .num 100, .blank, .blank⟩] →
              g1 ∈ [(⟨5, .num 1, .num 2, .blank, .num 0, .blank, .blank⟩ : Entry),
                ⟨10, .num 1, .num 2, .blank, .num 100, .blank, .blank⟩] →
              g0.time = l0 → g1.time = l1 → l0 < l1 →
              g0.dist = .num d0 → g1.dist = .num d1 →
              r = [l0, l1, l1 - l0, d1 - d0])) := by
  have hsorted : List.Pairwise Entry.timeLT
      [⟨5, .num 1, .num 2, .blank, .num 0, .blank, .blank⟩,
        ⟨10, .num 1, .num 2, .blank, .num 100, .blank, .blank⟩] := by
    simp [List.pairwise_cons, Entry.timeLT]
    norm_num
  have hres : calculate_lap_stats
      [⟨5, .num 1, .num 2, .blank, .num 0, .blank, .blank⟩,
        ⟨10, .num 1, .num 2, .blank, .num 100, .blank, .blank⟩]
      [(5, 10)] = .ok [[5, 10, 5, 100]] := by
    norm_num [calculate_lap_stats, calcLapStatsAux, lapScanAux, lapStopCalc]
  exact ⟨hsorted, hres, C6_lap_stats_formulas _ _ _ hsorted hres⟩

/-- Claim C7 (code defect): `filter_data` removes elements from the list it
iterates over, so the iterator skips the element after every removed one:
with two adjacent heart-rate rows at bpm `300` the second survives the
filter, though `300 > 254` is outside the valid band the claim requires the
stage to enforce. -/
theorem C7_filter_retains_adjacent_out_of_range :
    filter_data
        (HiData.mk [] []
          [⟨1, .blank, .blank, .blank, .blank, .num 300, .blank⟩,
            ⟨2, .blank, .blank, .blank, .blank, .num 300, .blank⟩,
            ⟨3, .blank, .blank, .blank, .blank, .num 80, .blank⟩] [] []) =
      HiData.mk [] []
        [⟨2, .blank, .blank, .blank, .blank, .num 300, .blank⟩,
          ⟨3, .blank, .blank, .blank, .blank, .num 80, .blank⟩] [] [] ∧
      (254 : ℚ) < 300 := by
  constructor <;> decide

theorem buildLaps_error_iff (data : List Entry) :
    ∀ ls : List (List ℚ),
      (∃ ls2, buildLaps data ls = .error ls2) ↔ ∃ s ∈ ls, s.length < 4 := by
  intro ls
  induction ls with
  | nil => simp [buildLaps]
  | cons stats rest ih =>
    by_cases h4 : 4 ≤ stats.length
    · rw [buildLaps, dif_pos h4]
      cases hb : buildLaps data rest with
      | ok ls2 =>
        constructor
        · rintro ⟨ls3, hls3⟩
          exact Except.noConfusion hls3
        · rintro ⟨s, hs, hlen⟩
          rcases List.mem_cons.mp hs with rfl | hs'
          · omega
          · rcases ih.mpr ⟨s, hs', hlen⟩ with ⟨ls3, h3⟩
            rw [hb] at h3
            exact Except.noConfusion h3
      | error ls2 =>
        constructor
        · intro _
          rcases ih.mp ⟨ls2, hb⟩ with ⟨s, hs, hlen⟩
          exact ⟨s, by simp [hs], hlen⟩
        · intro _
          exact ⟨_, rfl⟩
    · rw [buildLaps, dif_neg h4]
      constructor
      · intro _
        exact ⟨stats, by simp, by omega⟩
      · intro _
        exact ⟨[], rfl⟩

/-- Claim C8 (counterexample): with an empty lap-statistics list, document
assembly fails (`lap_stats[0][0]` raises, `generate_xml` prints `FAILED`,
`complete = false`) — and the pipeline still writes an output file from the
partially built document, contradicting "terminates without producing a
partial output artifact". -/
theorem C8_counterexample :
    (generate_xml [blankEntry 5] []).complete = false ∧
      serializePipeline [blankEntry 5] [] "HiTrack_12345678" =
        ("HiTrack_12345678" ++ ".tcx", generate_xml [blankEntry 5] []) :=
  ⟨rfl, rfl⟩

/-- Claim C8 (amended): a failure during document assembly is caught and
logged but never fatal: for every input the pipeline writes the
`<input>.tcx` artifact carrying exactly the (possibly partial) document
`generate_xml` returned, and assembly fails exactly when the lap-statistics
list is empty or contains a record with fewer than four entries. -/
theorem C8_serialization_is_fail_open (data : List Entry)
    (ls : List (List ℚ)) (f : String) :
    serializePipeline data ls f = (f ++ ".tcx", generate_xml data ls) ∧
      ((generate_xml data ls).complete = false ↔
        ls = [] ∨ ∃ s ∈ ls, s.length < 4) := by
  refine ⟨rfl, ?_⟩
  cases ls with
  | nil => simp [generate_xml]
  | cons first rest =>
    cases first with
    | nil =>
      rw [generate_xml]
      constructor
      · intro _
        exact Or.inr ⟨[], by simp, by simp⟩
      · intro _
        rfl
    | cons t0 ftail =>
      rw [generate_xml, genWithId]
      cases hb : buildLaps data ((t0 :: ftail) :: rest) with
      | ok ls2 =>
        constructor
        · intro hfalse
          exact absurd hfalse (by simp)
        · rintro (hnil | hshort)
          · exact List.noConfusion hnil
          · rcases (buildLaps_error_iff data ((t0 :: ftail) :: rest)).mpr hshort
              with ⟨ls3, h3⟩
            rw [hb] at h3
            exact Except.noConfusion h3
      | error ls2 =>
        constructor
        · intro _
          exact Or.inr ((buildLaps_error_iff data ((t0 :: ftail) :: rest)).mp ⟨ls2, hb⟩)
        · intro _
          rfl

end HuaweiTCX
